import Mathlib

/-!
Shallow embedding of `src/Simulation/Calculations.py`, a 2D Stable-Fluids
kernel operating on dense N×N grids.  Fields are modelled as total functions
`ℤ → ℤ → ℚ` (exact arithmetic in place of floating point); in-place numpy
mutation becomes explicit construction of a new field value.  The grid
dimension `N` and the relaxation iteration count (the global `iter` imported
from the `Properties` module, whose value is configuration) are explicit
parameters.
-/

namespace Calculations

/-- A dense square field, indexed by (row, column). -/
abbrev Field : Type := ℤ → ℤ → ℚ

/-- Pointwise single-cell update: the field equal to `f` except at `(i, j)`,
where it holds `v`.  Models one in-place numpy cell assignment. -/
def upd (f : Field) (i j : ℤ) (v : ℚ) : Field :=
  fun a b => if a = i ∧ b = j then v else f a b

/-- Lines 26-30 of `set_bnd`: the four corner cells are assigned in sequence
(top-left, top-right, bottom-left, bottom-right), each assignment reading the
array as already updated by the previous ones; Python's negative indices
`-1`, `-2` are `N-1`, `N-2`.  The boundary-kind argument `b` is not read. -/
def set_bnd (N b : ℤ) (x : Field) : Field :=
  let x1 := upd x 0 0 ((x 1 0 + x 0 1) / 2)
  let x2 := upd x1 0 (N - 1) ((x1 1 (N - 1) + x1 0 (N - 2)) / 2)
  let x3 := upd x2 (N - 1) 0 ((x2 (N - 2) 0 + x2 (N - 1) 1) / 2)
  upd x3 (N - 1) (N - 1) ((x3 (N - 2) (N - 1) + x3 (N - 1) (N - 2)) / 2)

/-- Lines 64-67 of `advect`: clamp a backward-traced coordinate into the
closed range `[0.5, N + 0.5]`. -/
def clampC (N : ℤ) (q : ℚ) : ℚ :=
  if q < 1 / 2 then 1 / 2 else if q > (N : ℚ) + 1 / 2 then (N : ℚ) + 1 / 2 else q

/-- Lines 72-75 of `advect`: `np.clip(z, 0, N-1)`. -/
def clip (N z : ℤ) : ℤ :=
  if z < 0 then 0 else if z > N - 1 then N - 1 else z

/-- Lines 53-64 of `advect`: the clamped backward-traced row coordinate of
cell `(i, j)`, `clampC (i - dt·(N-2)·Vx[i,j])`. -/
def backX (N : ℤ) (Vx : Field) (dt : ℚ) (i j : ℤ) : ℚ :=
  clampC N ((i : ℚ) - dt * ((N : ℚ) - 2) * Vx i j)

/-- Lines 53-67 of `advect`: the clamped backward-traced column coordinate of
cell `(i, j)` (the source uses `dty = dtx = dt·(N-2)`). -/
def backY (N : ℤ) (Vy : Field) (dt : ℚ) (i j : ℤ) : ℚ :=
  clampC N ((j : ℚ) - dt * ((N : ℚ) - 2) * Vy i j)

/-- Lines 68-84 of `advect`: bilinear sampling of `d0` at the backward-traced
point of cell `(i, j)`.  Note the source clips `i0`/`j0` before forming the
fractional weights `s1 = x - i0`, `t1 = y - j0`, while `i1 = i0 + 1` is taken
from the unclipped floor; the embedding reproduces that order. -/
def interp (N : ℤ) (d0 Vx Vy : Field) (dt : ℚ) (i j : ℤ) : ℚ :=
  let x := backX N Vx dt i j
  let y := backY N Vy dt i j
  let i0 := clip N ⌊x⌋
  let i1 := clip N (⌊x⌋ + 1)
  let j0 := clip N ⌊y⌋
  let j1 := clip N (⌊y⌋ + 1)
  let s1 := x - (i0 : ℚ)
  let s0 := 1 - s1
  let t1 := y - (j0 : ℚ)
  let t0 := 1 - t1
  s0 * (t0 * d0 i0 j0 + t1 * d0 i0 j1) + s1 * (t0 * d0 i1 j0 + t1 * d0 i1 j1)

/-- Lines 53-86, `advect`: every cell of the result is the bilinear sample of
`d0`, then `set_bnd` recomputes the corners.  The parameter `d` mirrors the
source's destination argument; the source rebinds the local name `d` to a
fresh array on line 81, so `d`'s contents are never read or written. -/
def advect (N b : ℤ) (d d0 Vx Vy : Field) (dt : ℚ) : Field :=
  set_bnd N b (fun i j => interp N d0 Vx Vy dt i j)

/-- The call `advect(b, d, d0, Vx, Vy, dt, N)` as the caller observes it:
first component the returned field, second component the contents of the
caller's `d` buffer after the call.  In the source, line 81 rebinds the local
name `d` to a newly allocated array, so the caller's buffer is untouched. -/
def advectCall (N b : ℤ) (d d0 Vx Vy : Field) (dt : ℚ) : Field × Field :=
  (advect N b d d0 Vx Vy dt, d)

/-- Lines 110-113 of `lin_solve`: one relaxation sweep.  The numpy slice
assignment evaluates its right-hand side from the pre-sweep field `x`, so
each interior cell `(1 ≤ i, j ≤ N-2)` reads the pre-sweep values of its four
neighbours; other cells are unchanged.  `cRecip = 1/c` is multiplied. -/
def sweep (N : ℤ) (x x0 : Field) (a c : ℚ) : Field :=
  fun i j =>
    if 1 ≤ i ∧ i ≤ N - 2 ∧ 1 ≤ j ∧ j ≤ N - 2 then
      (x0 i j + a * (x (i - 1) j + x (i + 1) j + x i (j - 1) + x i (j + 1))) * (1 / c)
    else x i j

/-- Lines 108-115, `lin_solve`: `it` repetitions of sweep-then-`set_bnd`.
`it` stands for the global `iter` constant imported from `Properties`. -/
def lin_solve (N : ℤ) (it : ℕ) (b : ℤ) (x x0 : Field) (a c : ℚ) : Field :=
  match it with
  | 0 => x
  | Nat.succ k => set_bnd N b (sweep N (lin_solve N k b x x0 a c) x0 a c)

/-- Lines 137-139, `diffuse`: `a = dt·diff·(N-2)·(N-2)`, delegate to
`lin_solve` with coefficients `(a, 1 + 6a)`. -/
def diffuse (N : ℤ) (it : ℕ) (b : ℤ) (x x0 : Field) (diff dt : ℚ) : Field :=
  let a := dt * diff * ((N : ℚ) - 2) * ((N : ℚ) - 2)
  lin_solve N it b x x0 a (1 + 6 * a)

/-- Lines 165-171 of `project`: the divergence loop writes every interior
cell of `div` to `-0.5·(velocX[i+1,j] - velocX[i-1,j] + velocY[i,j+1] -
velocY[i,j-1]) / N`; it reads only the velocity fields, which the loop does
not modify, so the sequential loop equals this simultaneous update.  Other
cells keep the caller's `div` values. -/
def divInit (N : ℤ) (velocX velocY div : Field) : Field :=
  fun i j =>
    if 1 ≤ i ∧ i ≤ N - 2 ∧ 1 ≤ j ∧ j ≤ N - 2 then
      -(1 / 2) * (velocX (i + 1) j - velocX (i - 1) j
        + velocY i (j + 1) - velocY i (j - 1)) / (N : ℚ)
    else div i j

/-- Line 171 of `project`: the same loop zeroes every interior cell of `p`;
other cells keep the caller's values. -/
def pInit (N : ℤ) (p : Field) : Field :=
  fun i j => if 1 ≤ i ∧ i ≤ N - 2 ∧ 1 ≤ j ∧ j ≤ N - 2 then 0 else p i j

/-- Lines 176-181 of `project`: the velocity-correction loop subtracts
`0.5·(p[i+1,j] - p[i-1,j] + p[i,j+1] - p[i,j-1])·N` — the sum of both axis
gradients — from the given component at every interior cell.  The source
applies this identical expression to `velocX` and to `velocY`; the loop reads
only `p`, which it does not modify, so the sequential loop equals this
simultaneous update. -/
def gradCorrect (N : ℤ) (p v : Field) : Field :=
  fun i j =>
    if 1 ≤ i ∧ i ≤ N - 2 ∧ 1 ≤ j ∧ j ≤ N - 2 then
      v i j - 1 / 2 * (p (i + 1) j - p (i - 1) j + p i (j + 1) - p i (j - 1)) * (N : ℚ)
    else v i j

/-- Lines 165-184, `project`: divergence and pressure initialisation,
boundary pass on both, pressure solve `lin_solve(0, p, div, 1, 6)`, velocity
correction, boundary pass on both velocity components.  Returns
`(velocX, velocY, p, div)`. -/
def project (N : ℤ) (it : ℕ) (velocX velocY p div : Field) :
    Field × Field × Field × Field :=
  let div1 := set_bnd N 0 (divInit N velocX velocY div)
  let p1 := set_bnd N 0 (pInit N p)
  let p2 := lin_solve N it 0 p1 div1 1 6
  let vX := set_bnd N 1 (gradCorrect N p2 velocX)
  let vY := set_bnd N 2 (gradCorrect N p2 velocY)
  (vX, vY, p2, div1)

/-- The identically-zero field. -/
def zeroF : Field := fun _ _ => 0

/-- The identically-one field. -/
def oneF : Field := fun _ _ => 1

/-- A field that is `1` at the non-corner edge cell `(1, 2)` of a 3×3 grid
and `0` elsewhere. -/
def pEdge : Field := fun i j => if i = 1 ∧ j = 2 then 1 else 0

/-- A field with a single peak of `2` at cell `(1, 1)`. -/
def dPeak : Field := fun i j => if i = 1 ∧ j = 1 then 2 else 0

/-- Reading an updated field away from the updated cell gives the old value. -/
lemma upd_ne (f : Field) (i j : ℤ) (v : ℚ) (a b : ℤ) (h : ¬(a = i ∧ b = j)) :
    upd f i j v a b = f a b := if_neg h

/-- Reading an updated field at the updated cell gives the new value. -/
lemma upd_eq (f : Field) (i j : ℤ) (v : ℚ) : upd f i j v i j = v := if_pos ⟨rfl, rfl⟩

/-- `set_bnd` leaves every non-corner cell unchanged. -/
lemma set_bnd_noncorner (N b : ℤ) (x : Field) (i j : ℤ)
    (h : ¬((i = 0 ∨ i = N - 1) ∧ (j = 0 ∨ j = N - 1))) :
    set_bnd N b x i j = x i j := by
  simp only [set_bnd]
  rw [upd_ne _ _ _ _ _ _ (by rintro ⟨rfl, rfl⟩; exact h ⟨Or.inr rfl, Or.inr rfl⟩),
    upd_ne _ _ _ _ _ _ (by rintro ⟨rfl, rfl⟩; exact h ⟨Or.inr rfl, Or.inl rfl⟩),
    upd_ne _ _ _ _ _ _ (by rintro ⟨rfl, rfl⟩; exact h ⟨Or.inl rfl, Or.inr rfl⟩),
    upd_ne _ _ _ _ _ _ (by rintro ⟨rfl, rfl⟩; exact h ⟨Or.inl rfl, Or.inl rfl⟩)]

/-- Interior cells (`1 ≤ i, j ≤ N-2`) are never corner cells. -/
lemma interior_noncorner (N i j : ℤ) (h1 : 1 ≤ i) (h2 : i ≤ N - 2)
    (h3 : 1 ≤ j) (h4 : j ≤ N - 2) :
    ¬((i = 0 ∨ i = N - 1) ∧ (j = 0 ∨ j = N - 1)) := by omega

/-- A sweep leaves every non-interior cell unchanged. -/
lemma sweep_not_interior (N : ℤ) (x x0 : Field) (a c : ℚ) (i j : ℤ)
    (h : ¬(1 ≤ i ∧ i ≤ N - 2 ∧ 1 ≤ j ∧ j ≤ N - 2)) :
    sweep N x x0 a c i j = x i j := if_neg h

/-- `lin_solve` leaves every cell that is neither interior nor a corner
unchanged, whatever the iteration count. -/
lemma lin_solve_frame (N : ℤ) (it : ℕ) (b : ℤ) (x x0 : Field) (a c : ℚ) (i j : ℤ)
    (hni : ¬(1 ≤ i ∧ i ≤ N - 2 ∧ 1 ≤ j ∧ j ≤ N - 2))
    (hnc : ¬((i = 0 ∨ i = N - 1) ∧ (j = 0 ∨ j = N - 1))) :
    lin_solve N it b x x0 a c i j = x i j := by
  induction it with
  | zero => rfl
  | succ k ih =>
      simp only [lin_solve]
      rw [set_bnd_noncorner N b _ i j hnc, sweep_not_interior N _ x0 a c i j hni]
      exact ih

/-- `set_bnd` of an identically-zero field is identically zero. -/
lemma set_bnd_zero (N b : ℤ) (x : Field) (hx : ∀ i j, x i j = 0) (i j : ℤ) :
    set_bnd N b x i j = 0 := by
  simp [set_bnd, upd, hx]

/-- A sweep over identically-zero current and right-hand-side fields is
identically zero. -/
lemma sweep_zero (N : ℤ) (x x0 : Field) (a c : ℚ)
    (hx : ∀ i j, x i j = 0) (hx0 : ∀ i j, x0 i j = 0) (i j : ℤ) :
    sweep N x x0 a c i j = 0 := by
  simp [sweep, hx, hx0]

/-- `lin_solve` on identically-zero guess and right-hand side stays
identically zero. -/
lemma lin_solve_zero (N : ℤ) (it : ℕ) (b : ℤ) (x x0 : Field) (a c : ℚ)
    (hx : ∀ i j, x i j = 0) (hx0 : ∀ i j, x0 i j = 0) (i j : ℤ) :
    lin_solve N it b x x0 a c i j = 0 := by
  induction it generalizing i j with
  | zero => exact hx i j
  | succ k ih =>
      simp only [lin_solve]
      exact set_bnd_zero N b _ (fun i j => sweep_zero N _ x0 a c ih hx0 i j) i j

/-- C5: `lin_solve` performs exactly `it` sweeps, each followed by the
boundary enforcer, and returns the field after the final sweep; within a
sweep every interior cell is assigned
`(x0[i,j] + a·(x[i-1,j] + x[i+1,j] + x[i,j-1] + x[i,j+1])) / c` where the
four neighbour values come from the pre-sweep snapshot of the field
(Jacobi-style), never from cells already updated in the same sweep. -/
theorem lin_solve_iter_sweeps (N : ℤ) (it : ℕ) (b : ℤ) (x x0 : Field) (a c : ℚ) :
    lin_solve N it b x x0 a c = (fun y => set_bnd N b (sweep N y x0 a c))^[it] x ∧
    ∀ y : Field, ∀ i j : ℤ, 1 ≤ i → i ≤ N - 2 → 1 ≤ j → j ≤ N - 2 →
      sweep N y x0 a c i j
        = (x0 i j + a * (y (i - 1) j + y (i + 1) j + y i (j - 1) + y i (j + 1))) / c := by
  constructor
  · induction it with
    | zero => rfl
    | succ k ih =>
        rw [Function.iterate_succ_apply']
        simp only [lin_solve]
        rw [ih]
  · intro y i j h1 h2 h3 h4
    simp only [sweep]
    rw [if_pos ⟨h1, h2, h3, h4⟩, mul_one_div]

/-- Witness for C5 at `N = 4`, one concrete sweep cell. -/
theorem lin_solve_iter_sweeps_witness :
    sweep 4 oneF oneF 1 6 1 1
      = (oneF 1 1 + 1 * (oneF 0 1 + oneF 2 1 + oneF 1 0 + oneF 1 2)) / 6 :=
  (lin_solve_iter_sweeps 4 2 0 zeroF oneF 1 6).2 oneF 1 1
    (by decide) (by decide) (by decide) (by decide)

/-- C9: with `a = 0`, `c = 1` the relaxation is degenerate: after any
positive iteration count every interior cell of the result equals the
right-hand side `x0` there. -/
theorem lin_solve_degenerate (N : ℤ) (it : ℕ) (b : ℤ) (x x0 : Field) (i j : ℤ)
    (hit : 1 ≤ it) (h1 : 1 ≤ i) (h2 : i ≤ N - 2) (h3 : 1 ≤ j) (h4 : j ≤ N - 2) :
    lin_solve N it b x x0 0 1 i j = x0 i j := by
  obtain ⟨k, rfl⟩ : ∃ k, it = k + 1 := ⟨it - 1, by omega⟩
  simp only [lin_solve]
  rw [set_bnd_noncorner N b _ i j (interior_noncorner N i j h1 h2 h3 h4)]
  simp only [sweep]
  rw [if_pos ⟨h1, h2, h3, h4⟩]
  ring

/-- Witness for C9 at `N = 4`, `it = 3`, cell `(1, 1)`. -/
theorem lin_solve_degenerate_witness :
    lin_solve 4 3 0 zeroF oneF 0 1 1 1 = oneF 1 1 :=
  lin_solve_degenerate 4 3 0 zeroF oneF 1 1
    (by decide) (by decide) (by decide) (by decide) (by decide)

/-- C8: `diffuse` computes `a = dt·diff·(N-2)²` and returns exactly
`lin_solve` applied with coefficients `(a, 1 + 6a)`, for all inputs. -/
theorem diffuse_delegates (N : ℤ) (it : ℕ) (b : ℤ) (x x0 : Field) (diff dt : ℚ) :
    diffuse N it b x x0 diff dt
      = lin_solve N it b x x0 (dt * diff * ((N : ℚ) - 2) ^ 2)
          (1 + 6 * (dt * diff * ((N : ℚ) - 2) ^ 2)) := by
  have ha : dt * diff * ((N : ℚ) - 2) * ((N : ℚ) - 2)
      = dt * diff * ((N : ℚ) - 2) ^ 2 := by ring
  simp only [diffuse, ha]

/-- One iteration of `lin_solve` unfolded: a single sweep followed by the
boundary pass. -/
lemma lin_solve_one (N b : ℤ) (x x0 : Field) (a c : ℚ) :
    lin_solve N 1 b x x0 a c = set_bnd N b (sweep N x x0 a c) := rfl

/-- A 2×2 field used to exercise `set_bnd` at `N = 2`. -/
def quadF : Field := fun i j => if i = 1 ∧ j = 1 then 4 else 0

/-- C6 (amended): `set_bnd` changes at most the four corner cells and ignores
the boundary kind; for `N ≥ 3` each corner becomes the average of its two
orthogonal edge neighbours as read before the call.  (At `N = 2` the later
corner assignments read the already-updated earlier corners, so the pre-call
averaging formula holds only from `N = 3` up.) -/
theorem set_bnd_corners_amended (N b bb : ℤ) (x : Field) (hN : 2 ≤ N) :
    (∀ i j : ℤ, ¬((i = 0 ∨ i = N - 1) ∧ (j = 0 ∨ j = N - 1)) →
      set_bnd N b x i j = x i j) ∧
    set_bnd N b x = set_bnd N bb x ∧
    (3 ≤ N →
      set_bnd N b x 0 0 = (x 1 0 + x 0 1) / 2 ∧
      set_bnd N b x 0 (N - 1) = (x 1 (N - 1) + x 0 (N - 2)) / 2 ∧
      set_bnd N b x (N - 1) 0 = (x (N - 2) 0 + x (N - 1) 1) / 2 ∧
      set_bnd N b x (N - 1) (N - 1) = (x (N - 2) (N - 1) + x (N - 1) (N - 2)) / 2) := by
  refine ⟨fun i j h => set_bnd_noncorner N b x i j h, rfl, fun hN3 => ?_⟩
  refine ⟨?_, ?_, ?_, ?_⟩
  · simp only [set_bnd]
    rw [upd_ne _ _ _ _ _ _ (by rintro ⟨h1, h2⟩; omega),
      upd_ne _ _ _ _ _ _ (by rintro ⟨h1, h2⟩; omega),
      upd_ne _ _ _ _ _ _ (by rintro ⟨h1, h2⟩; omega),
      upd_eq]
  · simp only [set_bnd]
    rw [upd_ne _ _ _ _ _ _ (show ¬((0 : ℤ) = N - 1 ∧ N - 1 = N - 1) by
        rintro ⟨h1, h2⟩; omega),
      upd_ne _ _ _ _ _ _ (show ¬((0 : ℤ) = N - 1 ∧ N - 1 = 0) by
        rintro ⟨h1, h2⟩; omega),
      upd_eq,
      upd_ne _ _ _ _ _ _ (show ¬((1 : ℤ) = 0 ∧ N - 1 = 0) by
        rintro ⟨h1, h2⟩; omega),
      upd_ne _ _ _ _ _ _ (show ¬((0 : ℤ) = 0 ∧ N - 2 = 0) by
        rintro ⟨h1, h2⟩; omega)]
  · simp only [set_bnd]
    rw [upd_ne _ _ _ _ _ _ (show ¬(N - 1 = N - 1 ∧ (0 : ℤ) = N - 1) by
        rintro ⟨h1, h2⟩; omega),
      upd_eq,
      upd_ne _ _ _ _ _ _ (show ¬(N - 2 = 0 ∧ (0 : ℤ) = N - 1) by
        rintro ⟨h1, h2⟩; omega),
      upd_ne _ _ _ _ _ _ (show ¬(N - 2 = 0 ∧ (0 : ℤ) = 0) by
        rintro ⟨h1, h2⟩; omega),
      upd_ne _ _ _ _ _ _ (show ¬(N - 1 = 0 ∧ (1 : ℤ) = N - 1) by
        rintro ⟨h1, h2⟩; omega),
      upd_ne _ _ _ _ _ _ (show ¬(N - 1 = 0 ∧ (1 : ℤ) = 0) by
        rintro ⟨h1, h2⟩; omega)]
  · simp only [set_bnd]
    rw [upd_eq,
      upd_ne _ _ _ _ _ _ (show ¬(N - 2 = N - 1 ∧ N - 1 = 0) by
        rintro ⟨h1, h2⟩; omega),
      upd_ne _ _ _ _ _ _ (show ¬(N - 2 = 0 ∧ N - 1 = N - 1) by
        rintro ⟨h1, h2⟩; omega),
      upd_ne _ _ _ _ _ _ (show ¬(N - 2 = 0 ∧ N - 1 = 0) by
        rintro ⟨h1, h2⟩; omega),
      upd_ne _ _ _ _ _ _ (show ¬(N - 1 = N - 1 ∧ N - 2 = 0) by
        rintro ⟨h1, h2⟩; omega),
      upd_ne _ _ _ _ _ _ (show ¬(N - 1 = 0 ∧ N - 2 = N - 1) by
        rintro ⟨h1, h2⟩; omega),
      upd_ne _ _ _ _ _ _ (show ¬(N - 1 = 0 ∧ N - 2 = 0) by
        rintro ⟨h1, h2⟩; omega)]

/-- Witness for C6: at `N = 4`, a concrete top-left corner value. -/
theorem set_bnd_corners_amended_witness :
    set_bnd 4 0 dPeak 0 0 = (dPeak 1 0 + dPeak 0 1) / 2 :=
  ((set_bnd_corners_amended 4 0 5 dPeak (by decide)).2.2 (by decide)).1

/-- Counterexample for C6 as stated: at `N = 2` the code sets the
bottom-right corner from already-updated corner values, not from the
pre-call values of the cell above and the cell to its left. -/
theorem set_bnd_corners_cex :
    set_bnd 2 0 quadF 1 1 ≠ (quadF 0 1 + quadF 1 0) / 2 := by
  norm_num [set_bnd, upd, quadF]

/-- The clamp of lines 64-67 always lands in `[1/2, N + 1/2]`. -/
lemma clampC_mem (N : ℤ) (hN : 0 ≤ N) (q : ℚ) :
    1 / 2 ≤ clampC N q ∧ clampC N q ≤ (N : ℚ) + 1 / 2 := by
  have h0 : (0 : ℚ) ≤ (N : ℚ) := by exact_mod_cast hN
  unfold clampC
  split_ifs with h1 h2
  · exact ⟨le_refl _, by linarith⟩
  · exact ⟨by linarith, le_refl _⟩
  · push_neg at h1 h2
    exact ⟨by linarith, by linarith⟩

/-- The clip of lines 72-75 always lands in `[0, N - 1]`. -/
lemma clip_mem (N : ℤ) (hN : 1 ≤ N) (z : ℤ) :
    0 ≤ clip N z ∧ clip N z ≤ N - 1 := by
  unfold clip
  split_ifs <;> omega

/-- C7: for any velocity magnitude and any `N ≥ 2`, the backward-traced
coordinates are clamped into `[0.5, N + 0.5]`, the four sampling indices are
clipped into `[0, N-1]`, and consequently the interpolation reads the source
field only at in-range cells: replacing `d0` by any field that agrees with it
on `[0, N-1] × [0, N-1]` leaves the advected value unchanged. -/
theorem advect_in_bounds (N : ℤ) (d0 d1 Vx Vy : Field) (dt : ℚ) (i j : ℤ)
    (hN : 2 ≤ N) :
    (1 / 2 ≤ backX N Vx dt i j ∧ backX N Vx dt i j ≤ (N : ℚ) + 1 / 2) ∧
    (1 / 2 ≤ backY N Vy dt i j ∧ backY N Vy dt i j ≤ (N : ℚ) + 1 / 2) ∧
    (0 ≤ clip N ⌊backX N Vx dt i j⌋ ∧ clip N ⌊backX N Vx dt i j⌋ ≤ N - 1) ∧
    (0 ≤ clip N (⌊backX N Vx dt i j⌋ + 1) ∧ clip N (⌊backX N Vx dt i j⌋ + 1) ≤ N - 1) ∧
    (0 ≤ clip N ⌊backY N Vy dt i j⌋ ∧ clip N ⌊backY N Vy dt i j⌋ ≤ N - 1) ∧
    (0 ≤ clip N (⌊backY N Vy dt i j⌋ + 1) ∧ clip N (⌊backY N Vy dt i j⌋ + 1) ≤ N - 1) ∧
    ((∀ a b : ℤ, 0 ≤ a → a ≤ N - 1 → 0 ≤ b → b ≤ N - 1 → d0 a b = d1 a b) →
      interp N d0 Vx Vy dt i j = interp N d1 Vx Vy dt i j) := by
  have hN1 : (1 : ℤ) ≤ N := by omega
  have c1 := clip_mem N hN1 ⌊backX N Vx dt i j⌋
  have c2 := clip_mem N hN1 (⌊backX N Vx dt i j⌋ + 1)
  have c3 := clip_mem N hN1 ⌊backY N Vy dt i j⌋
  have c4 := clip_mem N hN1 (⌊backY N Vy dt i j⌋ + 1)
  refine ⟨clampC_mem N (by omega) _, clampC_mem N (by omega) _, c1, c2, c3, c4, ?_⟩
  intro hagree
  simp only [interp]
  rw [hagree _ _ c1.1 c1.2 c3.1 c3.2, hagree _ _ c1.1 c1.2 c4.1 c4.2,
    hagree _ _ c2.1 c2.2 c3.1 c3.2, hagree _ _ c2.1 c2.2 c4.1 c4.2]

/-- Witness for C7 at `N = 4`, zero velocity, cell `(0, 0)`. -/
theorem advect_in_bounds_witness :
    0 ≤ clip 4 ⌊backX 4 zeroF 1 0 0⌋ ∧ clip 4 ⌊backX 4 zeroF 1 0 0⌋ ≤ 4 - 1 :=
  (advect_in_bounds 4 zeroF zeroF zeroF zeroF 1 0 0 (by decide)).2.2.1

/-- C3 (amended): with identically-zero velocity the advected field equals
the source field at every interior cell `(1 ≤ i, j ≤ N-2)`.  (On non-corner
edge cells the clamp moves the traced point to coordinate `0.5`, so the
result there is an average of two source cells, not the identity.) -/
theorem advect_zero_velocity_interior (N b : ℤ) (d d0 Vx Vy : Field) (dt : ℚ)
    (i j : ℤ) (hVx : ∀ a bb, Vx a bb = 0) (hVy : ∀ a bb, Vy a bb = 0)
    (hdt : 0 < dt) (h1 : 1 ≤ i) (h2 : i ≤ N - 2) (h3 : 1 ≤ j) (h4 : j ≤ N - 2) :
    advect N b d d0 Vx Vy dt i j = d0 i j := by
  have hi : (1 : ℚ) ≤ (i : ℚ) := by exact_mod_cast h1
  have hi2 : (i : ℚ) ≤ (N : ℚ) - 2 := by exact_mod_cast h2
  have hj : (1 : ℚ) ≤ (j : ℚ) := by exact_mod_cast h3
  have hj2 : (j : ℚ) ≤ (N : ℚ) - 2 := by exact_mod_cast h4
  have hx : backX N Vx dt i j = (i : ℚ) := by
    simp only [backX, hVx, mul_zero, sub_zero, clampC]
    rw [if_neg (by linarith), if_neg (by linarith)]
  have hy : backY N Vy dt i j = (j : ℚ) := by
    simp only [backY, hVy, mul_zero, sub_zero, clampC]
    rw [if_neg (by linarith), if_neg (by linarith)]
  have hci : clip N i = i := by unfold clip; split_ifs <;> omega
  have hci1 : clip N (i + 1) = i + 1 := by unfold clip; split_ifs <;> omega
  have hcj : clip N j = j := by unfold clip; split_ifs <;> omega
  have hcj1 : clip N (j + 1) = j + 1 := by unfold clip; split_ifs <;> omega
  unfold advect
  rw [set_bnd_noncorner N b _ i j (interior_noncorner N i j h1 h2 h3 h4)]
  simp only [interp, hx, hy, Int.floor_intCast, hci, hci1, hcj, hcj1, sub_self,
    sub_zero, one_mul, zero_mul, add_zero, mul_zero]

/-- Witness for C3's amended statement at `N = 4`, cell `(1, 1)`. -/
theorem advect_zero_velocity_interior_witness :
    advect 4 0 zeroF dPeak zeroF zeroF 1 1 1 = dPeak 1 1 :=
  advect_zero_velocity_interior 4 0 zeroF dPeak zeroF zeroF 1 1 1
    (fun _ _ => rfl) (fun _ _ => rfl) (by decide)
    (by decide) (by decide) (by decide) (by decide)

/-- Counterexample for C3 as stated: at the non-corner edge cell `(0, 1)` of
a 4×4 grid, zero-velocity advection averages rows 0 and 1 (the traced
coordinate is clamped to `0.5`) instead of returning `d0[0,1]`. -/
theorem advect_zero_velocity_cex :
    advect 4 0 zeroF dPeak zeroF zeroF 1 0 1 ≠ dPeak 0 1 := by
  norm_num [advect, interp, backX, backY, clampC, clip, set_bnd, upd, zeroF, dPeak]

/-- C2 (amended): `advect` does not mutate its destination argument: the
caller's `d` buffer is unchanged by the call, and the returned field is
computed from `d0` and the velocities alone, independent of `d`'s contents
(the source rebinds the local name `d` to a freshly allocated array). -/
theorem advect_returns_fresh (N b : ℤ) (d dAlt d0 Vx Vy : Field) (dt : ℚ) :
    (advectCall N b d d0 Vx Vy dt).2 = d ∧
    (advectCall N b d d0 Vx Vy dt).1 = (advectCall N b dAlt d0 Vx Vy dt).1 :=
  ⟨rfl, rfl⟩

/-- Counterexample for C2 as stated: after the call, the caller's `d` buffer
does not hold the advected values, so the returned field cannot be `d`
(the buffer was never overwritten). -/
theorem advect_alias_cex :
    (advectCall 4 0 zeroF dPeak zeroF zeroF 1).2 1 1
      ≠ (advectCall 4 0 zeroF dPeak zeroF zeroF 1).1 1 1 := by
  norm_num [advectCall, advect, interp, backX, backY, clampC, clip, set_bnd, upd,
    zeroF, dPeak]

/-- C4 (amended): if the velocity components and the initial contents of `p`
and `div` are all identically zero, `project` yields identically-zero
divergence and pressure and leaves both velocity components unchanged
(still identically zero).  (The restriction on the initial `p`/`div`
contents is needed because `project` never writes their non-corner edge
cells.) -/
theorem project_zero_velocity_amended (N : ℤ) (it : ℕ) (velocX velocY p div : Field)
    (hVx : ∀ i j, velocX i j = 0) (hVy : ∀ i j, velocY i j = 0)
    (hp : ∀ i j, p i j = 0) (hdiv : ∀ i j, div i j = 0) (i j : ℤ) :
    (project N it velocX velocY p div).2.2.2 i j = 0 ∧
    (project N it velocX velocY p div).2.2.1 i j = 0 ∧
    (project N it velocX velocY p div).1 i j = 0 ∧
    (project N it velocX velocY p div).2.1 i j = 0 ∧
    (project N it velocX velocY p div).1 i j = velocX i j ∧
    (project N it velocX velocY p div).2.1 i j = velocY i j := by
  have hdiv1 : ∀ a b, set_bnd N 0 (divInit N velocX velocY div) a b = 0 :=
    fun a b => set_bnd_zero N 0 _ (fun a b => by simp [divInit, hVx, hVy, hdiv]) a b
  have hp1 : ∀ a b, set_bnd N 0 (pInit N p) a b = 0 :=
    fun a b => set_bnd_zero N 0 _ (fun a b => by simp [pInit, hp]) a b
  have hp2 : ∀ a b, lin_solve N it 0 (set_bnd N 0 (pInit N p))
      (set_bnd N 0 (divInit N velocX velocY div)) 1 6 a b = 0 :=
    fun a b => lin_solve_zero N it 0 _ _ 1 6 hp1 hdiv1 a b
  have hvx : ∀ a b, set_bnd N 1 (gradCorrect N
      (lin_solve N it 0 (set_bnd N 0 (pInit N p))
        (set_bnd N 0 (divInit N velocX velocY div)) 1 6) velocX) a b = 0 :=
    fun a b => set_bnd_zero N 1 _ (fun a b => by simp [gradCorrect, hp2, hVx]) a b
  have hvy : ∀ a b, set_bnd N 2 (gradCorrect N
      (lin_solve N it 0 (set_bnd N 0 (pInit N p))
        (set_bnd N 0 (divInit N velocX velocY div)) 1 6) velocY) a b = 0 :=
    fun a b => set_bnd_zero N 2 _ (fun a b => by simp [gradCorrect, hp2, hVy]) a b
  refine ⟨hdiv1 i j, hp2 i j, hvx i j, hvy i j, ?_, ?_⟩
  · rw [hVx]; exact hvx i j
  · rw [hVy]; exact hvy i j

/-- Witness for C4's amended statement at `N = 3`, `it = 2`. -/
theorem project_zero_velocity_amended_witness :
    (project 3 2 zeroF zeroF zeroF zeroF).2.2.2 1 1 = 0 :=
  (project_zero_velocity_amended 3 2 zeroF zeroF zeroF zeroF
    (fun _ _ => rfl) (fun _ _ => rfl) (fun _ _ => rfl) (fun _ _ => rfl) 1 1).1

/-- Counterexample for C4 as stated: with identically-zero velocities but a
caller-supplied `div` holding `1` on the non-corner edge cell `(1, 2)` of a
3×3 grid, the divergence field returned by `project` is not identically
zero — that edge cell is never written. -/
theorem project_zero_velocity_cex :
    (project 3 1 zeroF zeroF zeroF pEdge).2.2.2 1 2 ≠ 0 := by
  norm_num [project, lin_solve_one, sweep, set_bnd, upd, divInit, pInit, zeroF, pEdge]

/-- C10: `project` writes `div` and zeroes `p` only at interior cells and
recomputes only the four corners through the boundary enforcer, so the
returned pressure and divergence keep the caller's prior values on every
non-corner edge cell; consequently the corrected velocities depend on those
stale values, witnessed by two runs differing only at the non-corner edge
cell `(1, 2)` of `p` that produce different corrected `velocX`. -/
theorem project_edge_frame :
    (∀ (N : ℤ) (it : ℕ) (velocX velocY p div : Field) (i j : ℤ),
      (i = 0 ∨ i = N - 1 ∨ j = 0 ∨ j = N - 1) →
      ¬((i = 0 ∨ i = N - 1) ∧ (j = 0 ∨ j = N - 1)) →
      (project N it velocX velocY p div).2.2.1 i j = p i j ∧
      (project N it velocX velocY p div).2.2.2 i j = div i j) ∧
    (∀ i j : ℤ, ¬(i = 1 ∧ j = 2) → pEdge i j = zeroF i j) ∧
    (project 3 1 zeroF zeroF pEdge zeroF).1 1 1
      ≠ (project 3 1 zeroF zeroF zeroF zeroF).1 1 1 := by
  refine ⟨?_, ?_, ?_⟩
  · intro N it velocX velocY p div i j hedge hnc
    have hni : ¬(1 ≤ i ∧ i ≤ N - 2 ∧ 1 ≤ j ∧ j ≤ N - 2) := by
      rcases hedge with h | h | h | h <;> omega
    constructor
    · show lin_solve N it 0 (set_bnd N 0 (pInit N p))
        (set_bnd N 0 (divInit N velocX velocY div)) 1 6 i j = p i j
      rw [lin_solve_frame N it 0 _ _ 1 6 i j hni hnc,
        set_bnd_noncorner N 0 _ i j hnc]
      simp [pInit, hni]
    · show set_bnd N 0 (divInit N velocX velocY div) i j = div i j
      rw [set_bnd_noncorner N 0 _ i j hnc]
      simp [divInit, hni]
  · intro i j h
    simp [pEdge, zeroF, h]
  · norm_num [project, lin_solve_one, sweep, set_bnd, upd, divInit, pInit,
      gradCorrect, zeroF, pEdge]

/-- Witness for C10's frame component at `N = 4`, edge cell `(0, 1)`. -/
theorem project_edge_frame_witness :
    (project 4 1 zeroF zeroF pEdge zeroF).2.2.1 0 1 = pEdge 0 1 ∧
    (project 4 1 zeroF zeroF pEdge zeroF).2.2.2 0 1 = zeroF 0 1 :=
  project_edge_frame.1 4 1 zeroF zeroF pEdge zeroF 0 1 (by decide) (by decide)

/-- C1: evaluation of `project` at a failing input for the per-axis-gradient
claim.  On a 3×3 grid with zero velocities, zero divergence, and pressure
holding `1` only at the edge cell `(1, 2)`, the solved pressure has zero
row-axis gradient at the interior cell `(1, 1)` — so the claimed update
`velocX[1,1] -= 0.5·N·(p[2,1] − p[0,1])` would leave `velocX[1,1] = 0` —
yet the code returns `velocX[1,1] = −3/2`, because lines 178-179 subtract
the column-axis gradient as well. -/
theorem project_combined_gradient :
    (project 3 1 zeroF zeroF pEdge zeroF).1 1 1
        ≠ zeroF 1 1 - 1 / 2 * ((project 3 1 zeroF zeroF pEdge zeroF).2.2.1 2 1
          - (project 3 1 zeroF zeroF pEdge zeroF).2.2.1 0 1) * 3 ∧
    (project 3 1 zeroF zeroF pEdge zeroF).1 1 1 = -(3 / 2) ∧
    (project 3 1 zeroF zeroF pEdge zeroF).2.2.1 2 1
      - (project 3 1 zeroF zeroF pEdge zeroF).2.2.1 0 1 = 0 := by
  norm_num [project, lin_solve_one, sweep, set_bnd, upd, divInit, pInit,
    gradCorrect, zeroF, pEdge]

end Calculations
